import Mathlib

/-!
Shallow embedding of `src/model_lib/fixed_c45.py` (a C4.5-style decision-tree
classifier over categorical attributes) and proofs about it.

Modelling conventions, used consistently below:

* Python `float` arithmetic is modelled by exact rationals (`ℚ`);
  `math.log2`, which is transcendental, is modelled by an explicit function
  parameter `log2 : ℚ → ℚ`, so every definition stays executable and no
  floating-point rounding is baked in.  No theorem below depends on any
  property of `log2`.
* Attribute values and class labels live in one linearly ordered type `V`
  (a Python record is one list holding both; the linear order is needed by
  the built-in `max` used in the unseen-value fallback).
* Python `dict`s preserve insertion order, so they are modelled by
  association lists that append new keys at the end.
* A Python statement that can raise is modelled with `Except String`
  (`calculate_entropy`, `classify`, `predict`, `summary`); the error string
  names the Python exception or carries the source's message.  Inside the
  selector and tree builder the source performs bare float divisions; there
  division by zero is modelled by ℚ's `x / 0 = 0` convention and an
  out-of-range Python index by an `Option`-valued lookup, each noted where
  it happens.
-/

namespace FixedC45

/-- Tree nodes: `_LeafNode(label, weight)` and `_DecisionNode(attribute)`
with its insertion-ordered `children` dict (value → child).  A leaf's label
is `Option V` because `__majority_class` can return Python `None`. -/
inductive Node (V : Type) where
  | leaf (label : Option V) (weight : ℚ)
  | decision (attr : String) (children : List (V × Node V))

/-- First-occurrence-order list of distinct elements: models Python
`set(...)` built from a list.  CPython's set iteration order is unspecified;
every quantity the claims depend on is invariant under the enumeration order
(each per-value contribution is combined with a commutative operation), so
the embedding fixes first-occurrence order. -/
def distinct {α : Type} [DecidableEq α] (l : List α) : List α :=
  l.foldl (fun acc v => if v ∈ acc then acc else acc ++ [v]) []

/-- One `class_counts[label] += weight` step: add weight `w` under key `k`,
inserting the key at the end on first occurrence (Python dict insertion
order). -/
def addWeight {K : Type} [DecidableEq K] (counts : List (K × ℚ)) (k : K)
    (w : ℚ) : List (K × ℚ) :=
  if k ∈ counts.map Prod.fst then
    counts.map (fun p => if p.1 = k then (p.1, p.2 + w) else p)
  else counts ++ [(k, w)]

/-- The label of a Python record, `record[-1]`; `none` models the
(never exercised during training) empty-row case, on which Python would
raise `IndexError` instead. -/
def recLabel {V : Type} (r : List V) : Option V := r.getLast?

variable {V : Type}

/-- The `class_counts` dict built by `__calculate_entropy` and
`__majority_class`: per-label accumulated weight, keys in first-occurrence
order.  Records and weights are paired positionally (`weights[i]`); the
`zip` models the source's parallel indexing, which assumes `weights` is at
least as long as `data`. -/
def classCounts [DecidableEq V] (data : List (List V)) (weights : List ℚ) :
    List (Option V × ℚ) :=
  (data.zip weights).foldl (fun cc rw => addWeight cc (recLabel rw.1) rw.2) []

/-- The `total_weight` accumulated alongside `class_counts`. -/
def totalWeight (data : List (List V)) (weights : List ℚ) : ℚ :=
  ((data.zip weights).map Prod.snd).sum

/-- The entropy loop of `__calculate_entropy` as a total function:
`entropy -= p * log2(p)` over the accumulated class counts, with
`p = count / total_weight` (in ℚ, `c / 0 = 0`).  The faithful fallible
version, which raises exactly where Python does, is `calculate_entropy`. -/
def entropyQ [DecidableEq V] (log2 : ℚ → ℚ) (data : List (List V))
    (weights : List ℚ) : ℚ :=
  (classCounts data weights).foldl
    (fun e p =>
      e - p.2 / totalWeight data weights * log2 (p.2 / totalWeight data weights))
    0

/-- The `C45Classifier.__calculate_entropy`.  Python raises `ZeroDivisionError`
at the first `count / total_weight` when `total_weight == 0` and at least
one class was counted (so the loop body runs); when no class was counted the
loop body never runs and `0.0` is returned unconditionally. -/
def calculate_entropy [DecidableEq V] (log2 : ℚ → ℚ) (data : List (List V))
    (weights : List ℚ) : Except String ℚ :=
  if classCounts data weights ≠ [] ∧ totalWeight data weights = 0 then
    .error "ZeroDivisionError: float division by zero"
  else
    .ok (entropyQ log2 data weights)

/-- The `C45Classifier.__split_data`: the records whose `attribute_index` column
equals `attribute_value`, each with that column removed
(`record[:i] + record[i+1:]`), paired with the matching weights.
`record[attribute_index]` is modelled by `List.get?`: a row shorter than the
index (impossible for the rectangular data the trainer passes; Python would
raise `IndexError`) simply never matches. -/
def split_data [DecidableEq V] (data : List (List V)) (attribute_index : ℕ)
    (attribute_value : V) (weights : List ℚ) : List (List V) × List ℚ :=
  let pairs := (data.zip weights).filter
    (fun rw => rw.1.get? attribute_index = some attribute_value)
  (pairs.map (fun rw =>
      rw.1.take attribute_index ++ rw.1.drop (attribute_index + 1)),
   pairs.map Prod.snd)

/-- The `set([record[attribute_index] for record in data])` in first-occurrence
order; a too-short row is skipped (same caveat as in `split_data`). -/
def attrValues [DecidableEq V] (data : List (List V)) (i : ℕ) : List V :=
  distinct (data.filterMap (fun r => r.get? i))

/-- The inner `for value in attribute_values` loop of
`__select_best_attribute_c50` accumulates the pair
`(attribute_entropy, split-information contribution of attribute i)`,
both starting at `0`.  `sum(subset_weights) / sum(weights)` is the source's
`subset_probability`. -/
def valueLoop [DecidableEq V] (log2 : ℚ → ℚ) (data : List (List V))
    (weights : List ℚ) (i : ℕ) : ℚ × ℚ :=
  (attrValues data i).foldl
    (fun acc v =>
      let sp := split_data data i v weights
      let p := sp.2.sum / weights.sum
      (acc.1 + p * entropyQ log2 sp.1 sp.2, acc.2 - p * log2 p))
    (0, 0)

/-- Loop state of `__select_best_attribute_c50`: `best_attribute`,
`best_gain_ratio`, and the `split_info` accumulator, which the source
declares OUTSIDE the per-attribute loop (line 92) and never resets. -/
structure SelState where
  best : Option ℕ
  bestGR : ℚ
  split_info : ℚ

/-- One iteration of the per-attribute loop of
`__select_best_attribute_c50` (source lines 93-113) at attribute index
`i`. -/
def selStep [DecidableEq V] (log2 : ℚ → ℚ) (data : List (List V))
    (weights : List ℚ) (total_entropy : ℚ) (st : SelState) (i : ℕ) :
    SelState :=
  let vl := valueLoop log2 data weights i
  let si := st.split_info + vl.2
  let gain := total_entropy - vl.1
  let gr := if si ≠ 0 then gain / si else 0
  if gr > st.bestGR then ⟨some i, gr, si⟩ else { st with split_info := si }

/-- The selector's loop state after scoring the first `k` attribute
indices, from the initial state `(None, 0.0, 0.0)`. -/
def selFold [DecidableEq V] (log2 : ℚ → ℚ) (data : List (List V))
    (weights : List ℚ) (total_entropy : ℚ) (k : ℕ) : SelState :=
  (List.range k).foldl (selStep log2 data weights total_entropy) ⟨none, 0, 0⟩

/-- The `C45Classifier.__select_best_attribute_c50` (with the bare float
divisions totalised over ℚ, see `entropyQ`). -/
def select_best_attribute_c50 [DecidableEq V] (log2 : ℚ → ℚ)
    (data : List (List V)) (attributes : List String) (weights : List ℚ) :
    Option ℕ :=
  (selFold log2 data weights (entropyQ log2 data weights)
    attributes.length).best

/-- The `C45Classifier.__majority_class`: the label with the greatest
accumulated weight; the scan keeps the first label to strictly exceed the
running maximum, which starts at `0.0`, so the result is `None` exactly when
every accumulated count is `≤ 0` (in particular on empty data). -/
def majority_class [DecidableEq V] (data : List (List V))
    (weights : List ℚ) : Option V :=
  ((classCounts data weights).foldl
    (fun acc p => if p.2 > acc.2 then (p.1, p.2) else acc)
    ((none : Option V), (0 : ℚ))).1

/-- The `split_info` component of `selStep` grows by exactly the attribute's
own contribution, whichever branch of the `best` update is taken. -/
theorem selStep_split_info [DecidableEq V] (log2 : ℚ → ℚ)
    (data : List (List V)) (weights : List ℚ) (total_entropy : ℚ)
    (st : SelState) (i : ℕ) :
    (selStep log2 data weights total_entropy st i).split_info
      = st.split_info + (valueLoop log2 data weights i).2 := by
  simp only [selStep]
  split <;> split <;> rfl

/-- C1: in a single `__select_best_attribute_c50` call the `split_info`
accumulator is initialised once before the per-attribute loop and never
reset, so after scoring the first `k` attributes it equals the sum of the
split-information contributions of all of them; and the state in which
attribute `i` is scored (through `selStep`) is the state left by attributes
`0..i-1`, so the gain-ratio denominator for attribute `i` is the sum of the
contributions of all previously evaluated attributes plus its own, and the
gain ratio of attribute `i` depends on the attributes at indices below
`i`. -/
theorem c1_split_info_accumulates [DecidableEq V] (log2 : ℚ → ℚ)
    (data : List (List V)) (weights : List ℚ) (total_entropy : ℚ) (k : ℕ) :
    (selFold log2 data weights total_entropy k).split_info
        = ∑ j in Finset.range k, (valueLoop log2 data weights j).2
      ∧ selFold log2 data weights total_entropy (k + 1)
        = selStep log2 data weights total_entropy
            (selFold log2 data weights total_entropy k) k := by
  constructor
  · induction k with
    | zero => simp [selFold]
    | succ n ih =>
      rw [selFold, List.range_succ, List.foldl_append]
      rw [Finset.sum_range_succ]
      simp only [List.foldl_cons, List.foldl_nil]
      rw [selStep_split_info]
      rw [selFold] at ih
      rw [ih]
  · rw [selFold, selFold, List.range_succ, List.foldl_append]
    simp

/-- C2: `__calculate_entropy` is unguarded.  On nonempty records whose
total weight is `0` (here one record with label `5` and weight `0`) the
first division `count / total_weight` raises `ZeroDivisionError`; only when
no class is counted at all (e.g. the empty record list) does it return `0`
without attempting a division.  The spec mandates entropy `= 0` for every
zero-total-weight input; the code raises on this input instead. -/
theorem c2_entropy_unguarded_at_zero_weight :
    calculate_entropy (V := ℕ) (fun _ => 0) [[5]] [0]
        = .error "ZeroDivisionError: float division by zero"
      ∧ calculate_entropy (V := ℕ) (fun _ => 0) [] [] = .ok 0 := by
  constructor
  · norm_num [calculate_entropy, classCounts, addWeight, totalWeight,
      recLabel]
  · norm_num [calculate_entropy, classCounts, totalWeight, entropyQ]

mutual

/-- The `_DecisionNode.depth` for a node with the given children dict: `1` when
the dict is empty (defensive; trained Decision nodes always have children),
else one plus the running maximum of the depths of the Decision-typed
children only; Leaf children are skipped by the `isinstance` test, so a node
whose children are all Leaves keeps the initial maximum `0` and has depth
`1`. -/
def decisionDepth : List (V × Node V) → ℕ
  | children =>
    if children.isEmpty then 1 else maxDecChildDepth children 0 + 1

/-- The `for child in self.children.values()` loop of `_DecisionNode.depth`:
folds the running `max_depth` over the Decision-typed children. -/
def maxDecChildDepth : List (V × Node V) → ℕ → ℕ
  | [], m => m
  | (_, Node.leaf _ _) :: rest, m => maxDecChildDepth rest m
  | (_, Node.decision _ gch) :: rest, m =>
      maxDecChildDepth rest (max m (decisionDepth gch))

end

/-- The `depth()` invoked on an arbitrary node: `_LeafNode` defines no `depth`
method, so the call raises `AttributeError` (`none`); on a Decision node it
computes `decisionDepth` of the children. -/
def Node.depth : Node V → Option ℕ
  | .leaf _ _ => none
  | .decision _ ch => some (decisionDepth ch)

mutual

/-- The `_DecisionNode.count_leaves` for a node with the given children dict:
`1` when the dict is empty (defensive), else the loop sum over the
children. -/
def decisionLeaves : List (V × Node V) → ℕ
  | children =>
    if children.isEmpty then 1 else countChildLeaves children

/-- The loop of `_DecisionNode.count_leaves`: a Decision child contributes
its own `count_leaves()`, any other child contributes `1`. -/
def countChildLeaves : List (V × Node V) → ℕ
  | [] => 0
  | (_, Node.leaf _ _) :: rest => 1 + countChildLeaves rest
  | (_, Node.decision _ gch) :: rest =>
      decisionLeaves gch + countChildLeaves rest

end

/-- The `count_leaves()` invoked on an arbitrary node: `_LeafNode` defines no
`count_leaves` method, so the call raises `AttributeError` (`none`). -/
def Node.count_leaves : Node V → Option ℕ
  | .leaf _ _ => none
  | .decision _ ch => some (decisionLeaves ch)

/-- Whether a node is a `_LeafNode`. -/
def Node.isLeaf : Node V → Bool
  | .leaf _ _ => true
  | .decision _ _ => false

/-- The value `_DecisionNode.depth` reads off one child: a Decision child's
own depth, a Leaf child being skipped (i.e. contributing `0` to the
running maximum). -/
def decDepthOf : Node V → ℕ
  | .leaf _ _ => 0
  | .decision _ gch => decisionDepth gch

/-- The running-maximum loop of `_DecisionNode.depth` computes the maximum
of the initial accumulator and the per-child depth contributions. -/
theorem maxDecChildDepth_eq (ch : List (V × Node V)) (m : ℕ) :
    maxDecChildDepth ch m
      = max m ((ch.map fun p => decDepthOf p.2).foldr max 0) := by
  induction ch generalizing m with
  | nil => simp [maxDecChildDepth]
  | cons hd rest ih =>
    obtain ⟨v, c⟩ := hd
    cases c with
    | leaf l w => simp [maxDecChildDepth, ih, decDepthOf]
    | decision a gch =>
      simp only [maxDecChildDepth, ih, List.map_cons, List.foldr_cons,
        decDepthOf]
      rw [Nat.max_assoc]

/-- C5, counterexample: the claim says a Decision node all of whose
children are Leaves has depth `2`, and that a Leaf has depth `1`.  In the
code, `depth()` skips Leaf children when maximising, so this two-Leaf
Decision node has depth `1`; and `_LeafNode` has no `depth` method at all
(`AttributeError`), so a Leaf does not return `1`. -/
theorem c5_depth_counterexample :
    Node.depth (Node.decision "A"
        [((0 : ℕ), Node.leaf (some 1) 1), (1, Node.leaf (some 0) 1)])
        = some 1
      ∧ Node.depth (Node.leaf (some (0 : ℕ)) 1) = none := by
  constructor
  · simp [Node.depth, decisionDepth, maxDecChildDepth]
  · simp [Node.depth]

/-- On an all-Leaf children list, every child contributes `0` to the
depth maximum. -/
theorem foldr_max_zero_of_all_leaf (ch : List (V × Node V))
    (hall : ∀ p ∈ ch, p.2.isLeaf) :
    (ch.map fun p => decDepthOf p.2).foldr max 0 = 0 := by
  induction ch with
  | nil => rfl
  | cons hd rest ih =>
    have hhd := hall hd (List.mem_cons_self hd rest)
    have hrest : ∀ p ∈ rest, p.2.isLeaf := fun p hp =>
      hall p (List.mem_cons_of_mem hd hp)
    cases hc : hd.2 with
    | leaf l w =>
      have h0 : decDepthOf hd.2 = 0 := by rw [hc]; rfl
      simp [h0, ih hrest]
    | decision a2 g2 => rw [hc] at hhd; simp [Node.isLeaf] at hhd

/-- C5, amended: `depth()` exists only on Decision nodes — invoking it on a
Leaf raises `AttributeError`; a childless Decision node has depth `1`; a
Decision node with children has depth `1 +` the maximum of the depths of
its Decision-typed children (`0` when there are none, so a Decision node
all of whose children are Leaves has depth `1`, not `2`). -/
theorem c5_depth_amended (l : Option V) (w : ℚ) (a : String)
    (ch : List (V × Node V)) (hne : ch ≠ []) :
    Node.depth (Node.leaf l w) = none
      ∧ Node.depth (Node.decision a ([] : List (V × Node V))) = some 1
      ∧ Node.depth (Node.decision a ch)
          = some (((ch.map fun p => decDepthOf p.2).foldr max 0) + 1)
      ∧ ((∀ p ∈ ch, p.2.isLeaf) →
          Node.depth (Node.decision a ch) = some 1) := by
  refine ⟨rfl, by simp [Node.depth, decisionDepth], ?_, ?_⟩
  · simp [Node.depth, decisionDepth, hne, maxDecChildDepth_eq]
  · intro hall
    simp [Node.depth, decisionDepth, hne, maxDecChildDepth_eq,
      foldr_max_zero_of_all_leaf ch hall]

/-- C5, witness for the amended theorem at a concrete all-Leaf Decision
node. -/
theorem c5_depth_amended_witness :
    Node.depth (Node.decision "A"
        [((0 : ℕ), Node.leaf (some 1) 1), (1, Node.leaf (some 0) 1)])
        = some (((([((0 : ℕ), Node.leaf (some 1) (1 : ℚ)),
            (1, Node.leaf (some 0) 1)].map fun p => decDepthOf p.2).foldr
              max 0) + 1)) := by
  exact (c5_depth_amended (some 1) 1 "A"
    [((0 : ℕ), Node.leaf (some 1) 1), (1, Node.leaf (some 0) 1)]
    (by simp)).2.2.1

/-- The `_LeafNode` children of a Decision node, in order: the
`class_labels` list collected by the unseen-value fallback of
`__classify`. -/
def leafLabels : List (V × Node V) → List (Option V) :=
  List.filterMap fun p =>
    match p.2 with
    | Node.leaf lab _ => some lab
    | Node.decision _ _ => none

/-- Python `max` on two labels.  Every label of a model trained with a
positive weight is a proper value; the `None` label (which Python's `max`
could not compare against a proper value at all) is totalised as the least
element. -/
def omax [LinearOrder V] : Option V → Option V → Option V
  | none, b => b
  | some x, none => some x
  | some x, some y => some (max x y)

/-- The label order matching `omax`: `None` below every proper label. -/
def ole [LinearOrder V] : Option V → Option V → Prop
  | none, _ => True
  | some _, none => False
  | some x, some y => x ≤ y

/-- Python `max(...)` over a list of labels (`none` models the
`ValueError` on an empty sequence, which the fallback never triggers). -/
def pyMaxOpt [LinearOrder V] : List (Option V) → Option V
  | [] => none
  | x :: xs => xs.foldl omax x

/-- The unseen-value fallback of `__classify` (source lines 205-213): when
the instance's value has no edge, collect the labels of the direct Leaf
children; with none, return the majority class of the entire retained
training set under uniform weight `1.0`; otherwise return
`max(set(class_labels))`. -/
def unseenFallback [LinearOrder V] (gdata : List (List V))
    (ch : List (V × Node V)) : Option V :=
  match leafLabels ch with
  | [] => majority_class gdata (List.replicate gdata.length (1 : ℚ))
  | x :: xs => pyMaxOpt (distinct (x :: xs))

mutual

/-- The recursion of `C45Classifier.__classify` on a concrete (non-`None`)
node.  `attrs` is the model's original attribute list (`self.attributes`),
`gdata` the retained training records (`self.data`).  A Leaf returns its
label; a Decision node looks its attribute up in the original attribute
order (`ValueError` if absent), reads `instance[index]` (`IndexError` if
the instance is too short), follows the matching edge if any, and otherwise
answers with the unseen-value fallback. -/
def classifyAux [LinearOrder V] (attrs : List String)
    (gdata : List (List V)) : Node V → List V → Except String (Option V)
  | Node.leaf lab _, _ => .ok lab
  | Node.decision a ch, inst =>
    match attrs.indexOf? a with
    | none => .error "ValueError: attribute is not in list"
    | some idx =>
      match inst.get? idx with
      | none => .error "IndexError: list index out of range"
      | some v => classifySearch attrs gdata v inst
          (.ok (unseenFallback gdata ch)) ch

/-- The dict lookup `attribute_values in tree.children` followed by
`tree.children[attribute_values]`: walk the insertion-ordered children for
the first edge equal to `v` and recurse into it; `fb` is the already
computed unseen-value fallback answer used when no edge matches. -/
def classifySearch [LinearOrder V] (attrs : List String)
    (gdata : List (List V)) (v : V) (inst : List V)
    (fb : Except String (Option V)) :
    List (V × Node V) → Except String (Option V)
  | [] => fb
  | (v2, c) :: rest =>
    if v2 = v then classifyAux attrs gdata c inst
    else classifySearch attrs gdata v inst fb rest

end

/-- When no edge matches `v`, the child search returns the fallback. -/
theorem classifySearch_not_found [LinearOrder V] (attrs : List String)
    (gdata : List (List V)) (v : V) (inst : List V)
    (fb : Except String (Option V)) (ch : List (V × Node V))
    (hv : v ∉ ch.map Prod.fst) :
    classifySearch attrs gdata v inst fb ch = fb := by
  induction ch with
  | nil => rfl
  | cons hd rest ih =>
    obtain ⟨v2, c⟩ := hd
    simp only [List.map_cons, List.mem_cons, not_or] at hv
    rw [classifySearch, if_neg (fun h => hv.1 h.symm)]
    exact ih hv.2

/-- The `omax` picks one of its arguments. -/
theorem omax_mem [LinearOrder V] (a b : Option V) :
    omax a b = a ∨ omax a b = b := by
  cases a with
  | none => exact Or.inr rfl
  | some x =>
    cases b with
    | none => exact Or.inl rfl
    | some y =>
      rcases le_total x y with h | h
      · exact Or.inr (by simp [omax, max_eq_right h])
      · exact Or.inl (by simp [omax, max_eq_left h])

/-- Both arguments are `ole`-below `omax`. -/
theorem ole_omax_left [LinearOrder V] (a b : Option V) : ole a (omax a b) := by
  cases a <;> cases b <;> simp [ole, omax, le_max_left]

/-- Both arguments are `ole`-below `omax`. -/
theorem ole_omax_right [LinearOrder V] (a b : Option V) :
    ole b (omax a b) := by
  cases a <;> cases b <;> simp [ole, omax, le_max_right]

/-- The `ole` is transitive. -/
theorem ole_trans [LinearOrder V] {a b c : Option V} (h1 : ole a b)
    (h2 : ole b c) : ole a c := by
  cases a with
  | none => trivial
  | some x =>
    cases b with
    | none => exact h1.elim
    | some y =>
      cases c with
      | none => exact h2.elim
      | some z => exact le_trans (h1 : x ≤ y) (h2 : y ≤ z)

/-- The `ole` is reflexive. -/
theorem ole_refl [LinearOrder V] (a : Option V) : ole a a := by
  cases a <;> simp [ole]

/-- The fold of `omax` over a nonempty label list yields a member that
bounds every element. -/
theorem foldl_omax_spec [LinearOrder V] (x : Option V) (xs : List (Option V)) :
    xs.foldl omax x ∈ x :: xs ∧ ∀ y ∈ x :: xs, ole y (xs.foldl omax x) := by
  induction xs generalizing x with
  | nil => exact ⟨List.mem_singleton.mpr rfl, by simpa using ole_refl x⟩
  | cons z zs ih =>
    obtain ⟨hmem, hle⟩ := ih (omax x z)
    constructor
    · rcases List.mem_cons.mp hmem with h | h
      · rcases omax_mem x z with hxz | hxz <;> rw [List.foldl_cons, h, hxz]
        · exact List.mem_cons_self _ _
        · exact List.mem_cons_of_mem _ (List.mem_cons_self _ _)
      · exact List.mem_cons_of_mem _ (List.mem_cons_of_mem _ h)
    · intro y hy
      rcases List.mem_cons.mp hy with rfl | hy2
      · exact ole_trans (ole_omax_left y z) (hle _ (List.mem_cons_self _ _))
      · rcases List.mem_cons.mp hy2 with rfl | hy3
        · exact ole_trans (ole_omax_right x y)
            (hle _ (List.mem_cons_self _ _))
        · exact hle _ (List.mem_cons_of_mem _ hy3)

/-- Membership in `distinct` is membership in the underlying list. -/
theorem mem_distinct_iff {α : Type} [DecidableEq α] (l : List α) (x : α) :
    x ∈ distinct l ↔ x ∈ l := by
  have key : ∀ (l acc : List α), x ∈ l.foldl
      (fun acc v => if v ∈ acc then acc else acc ++ [v]) acc
        ↔ x ∈ acc ∨ x ∈ l := by
    intro l
    induction l with
    | nil => simp
    | cons hd rest ih =>
      intro acc
      rw [List.foldl_cons, ih]
      by_cases hmem : hd ∈ acc
      · simp only [if_pos hmem, List.mem_cons]
        constructor
        · rintro (h | h)
          · exact Or.inl h
          · exact Or.inr (Or.inr h)
        · rintro (h | rfl | h)
          · exact Or.inl h
          · exact Or.inl hmem
          · exact Or.inr h
      · simp only [if_neg hmem, List.mem_append, List.mem_singleton,
          List.mem_cons]
        tauto
  rw [distinct, key]
  simp

/-- The `distinct` of a nonempty list is nonempty. -/
theorem distinct_ne_nil {α : Type} [DecidableEq α] (x : α) (xs : List α) :
    distinct (x :: xs) ≠ [] := by
  intro h
  have := (mem_distinct_iff (x :: xs) x).mpr (List.mem_cons_self x xs)
  rw [h] at this
  exact (List.not_mem_nil x) this

/-- C3: at a Decision node whose attribute resolves to index `idx` in the
original attribute order, on an instance whose value `v` at that index
matches no edge, `__classify` returns (without raising): the
`max(set(...))` of the labels of the direct Leaf children when at least one
exists — a member of the collected labels that is `ole`-maximal among them
— and otherwise the majority class of the entire retained training set
under uniform weight `1.0` per record. -/
theorem c3_unseen_value_fallback [LinearOrder V] (attrs : List String)
    (gdata : List (List V)) (a : String) (ch : List (V × Node V))
    (inst : List V) (idx : ℕ) (v : V)
    (hidx : attrs.indexOf? a = some idx)
    (hv : inst.get? idx = some v)
    (hmiss : v ∉ ch.map Prod.fst) :
    classifyAux attrs gdata (Node.decision a ch) inst
        = .ok (unseenFallback gdata ch)
      ∧ (leafLabels ch ≠ [] →
          unseenFallback gdata ch ∈ leafLabels ch
            ∧ ∀ y ∈ leafLabels ch, ole y (unseenFallback gdata ch))
      ∧ (leafLabels ch = [] →
          unseenFallback gdata ch
            = majority_class gdata (List.replicate gdata.length (1 : ℚ))) := by
  refine ⟨?_, ?_, ?_⟩
  · simp only [classifyAux, hidx, hv]
    exact classifySearch_not_found attrs gdata v inst _ ch hmiss
  · intro hne
    match hll : leafLabels ch with
    | [] => exact absurd hll hne
    | x :: xs =>
      have hfb : unseenFallback gdata ch = pyMaxOpt (distinct (x :: xs)) := by
        rw [unseenFallback, hll]
      match hd : distinct (x :: xs) with
      | [] => exact absurd hd (distinct_ne_nil x xs)
      | d :: ds =>
        obtain ⟨hmem, hle⟩ := foldl_omax_spec d ds
        rw [hfb, hd]
        constructor
        · have hmem2 : ds.foldl omax d ∈ distinct (x :: xs) := by
            rw [hd]; exact hmem
          rw [mem_distinct_iff] at hmem2
          exact hmem2
        · intro y hy
          have hy2 : y ∈ distinct (x :: xs) := (mem_distinct_iff _ y).mpr hy
          rw [hd] at hy2
          exact hle y hy2
  · intro hnil
    rw [unseenFallback, hnil]

/-- C3, witness: a concrete Decision node over labels `ℕ` with one Leaf
child and one Decision child, classified on an instance whose value matches
no edge: the result is the fallback, which is the maximal collected Leaf
label. -/
theorem c3_unseen_value_fallback_witness :
    classifyAux ["A", "B"] ([] : List (List ℕ))
        (Node.decision "A" [(0, Node.leaf (some 7) 1),
          (1, Node.decision "B" [(4, Node.leaf (some 9) 1)])]) [2, 3]
        = .ok (unseenFallback ([] : List (List ℕ))
            [(0, Node.leaf (some 7) 1),
             (1, Node.decision "B" [(4, Node.leaf (some 9) 1)])]) := by
  exact (c3_unseen_value_fallback ["A", "B"] [] "A"
    [(0, Node.leaf (some 7) 1), (1, Node.decision "B"
      [(4, Node.leaf (some 9) 1)])] [2, 3] 0 2
    (by decide) (by decide) (by decide)).1

/-- Python `str(...)` of a label that may be `None`. -/
def optStr (vts : V → String) : Option V → String
  | none => "None"
  | some v => vts v

mutual

/-- The recursive `build_rules` worker inside `C45Classifier.rules`
(source lines 306-317).  `hasParent` is the truthiness of `parent_node`,
`edge` the stringified `edge_label`, `rule` the conjunction built so far,
`vts` the f-string rendering of an attribute value.  At a Decision node
with a parent the rule gains " AND <this node's attribute> = <incoming
edge label>" (sic — the source pairs the child's attribute with the edge
leading INTO it) and the children are visited in dict order; at a Leaf the
rule gains " => Class: <label>, Weight: <weight>" (only with a parent) and
is emitted with its first five characters dropped. -/
def buildRulesNode (vts : V → String) :
    Node V → Bool → String → String → List String
  | Node.leaf lab w, hasParent, _, rule =>
    let lbl := "Class: " ++ optStr vts lab ++ ", Weight: " ++ toString w
    let rule2 := if hasParent then rule ++ " => " ++ lbl else rule
    [rule2.drop 5]
  | Node.decision a ch, hasParent, edge, rule =>
    let rule2 := if hasParent then rule ++ " AND " ++ a ++ " = " ++ edge
      else rule
    buildRulesChildren vts ch rule2

/-- The `for value, child_node in node.children.items()` loop of
`build_rules`: every child is visited with this node as parent and the
extended rule; emitted rules concatenate in traversal order. -/
def buildRulesChildren (vts : V → String) :
    List (V × Node V) → String → List String
  | [], _ => []
  | (v, c) :: rest, rule =>
    buildRulesNode vts c true (vts v) rule
      ++ buildRulesChildren vts rest rule

end

/-- Configuration and trained state of `C45Classifier`.  `weight` is the
uniform per-record training weight, `deep` the counter that
`__build_decision_tree` maximises in place, `max_depth : Option ℕ` models
the `None` default; `tree`, `attributes` and `data` are `None` until
`fit`. -/
structure C45Classifier (V : Type) where
  tree : Option (Node V)
  attributes : Option (List String)
  data : Option (List (List V))
  weight : ℚ
  max_depth : Option ℕ
  deep : ℕ
  min_samples_split : ℕ
  min_samples_leaf : ℕ

/-- The `C45Classifier.__init__(max_depth=None, min_samples_split=2,
min_samples_leaf=1)` with the hyperparameters passed explicitly. -/
def C45Classifier.init (max_depth : Option ℕ) (mss msl : ℕ) :
    C45Classifier V :=
  ⟨none, none, none, 1, max_depth, 0, mss, msl⟩

/-- The `C45Classifier.__build_decision_tree` (source lines 138-177), with an
explicit recursion budget `fuel`.  Each recursive call passes a candidate
attribute list shorter by one, so a budget of `attributes.length` always
suffices (theorem `c9_builder_terminates`); the `fuel = 0` out-of-budget
branch, unreachable from `build_decision_tree`, returns the majority-class
Leaf like the neighbouring stopping rules.  Returns the built node
together with the updated `self.deep` counter, the only field the source
method mutates. -/
def buildAux [LinearOrder V] (log2 : ℚ → ℚ) (maxD : Option ℕ)
    (mss msl : ℕ) :
    ℕ → List (List V) → List String → List ℚ → ℕ → ℕ → Node V × ℕ
  | fuel, data, attributes, weights, depth, deep =>
    match distinct (data.map recLabel) with
    | [l] => (Node.leaf l weights.sum, deep)
    | _ =>
      if attributes.length = 1 then
        (Node.leaf (majority_class data weights) weights.sum, deep)
      else if maxD = some depth then
        (Node.leaf (majority_class data weights) weights.sum, deep)
      else if data.length < msl then
        (Node.leaf (majority_class data weights) weights.sum, deep)
      else if data.length < mss then
        (Node.leaf (majority_class data weights) weights.sum, deep)
      else
        match select_best_attribute_c50 log2 data attributes weights with
        | none => (Node.leaf (majority_class data weights) weights.sum, deep)
        | some best =>
          let bname := (attributes.get? best).getD ""
          let attrs2 := attributes.take best ++ attributes.drop (best + 1)
          let values := attrValues data best
          let new_depth := depth + 1
          match fuel with
          | 0 =>
            (Node.leaf (majority_class data weights) weights.sum,
             max deep new_depth)
          | fuel2 + 1 =>
            let res := values.foldl
              (fun (acc : List (V × Node V) × ℕ) v =>
                let sp := split_data data best v weights
                if sp.1.isEmpty then
                  (acc.1 ++ [(v, Node.leaf (majority_class data weights)
                    sp.2.sum)], acc.2)
                else
                  let cb := buildAux log2 maxD mss msl fuel2 sp.1 attrs2
                    sp.2 new_depth acc.2
                  (acc.1 ++ [(v, cb.1)], cb.2))
              (([] : List (V × Node V)), max deep new_depth)
            (Node.decision bname res.1, res.2)

/-- The `__build_decision_tree` as entered from `__make_tree`, with the
always-sufficient budget `attributes.length`. -/
def build_decision_tree [LinearOrder V] (log2 : ℚ → ℚ) (maxD : Option ℕ)
    (mss msl : ℕ) (data : List (List V)) (attributes : List String)
    (weights : List ℚ) (depth deep : ℕ) : Node V × ℕ :=
  buildAux log2 maxD mss msl attributes.length data attributes weights
    depth deep

/-- The `C45Classifier.__train(data, weight)`: `self.attributes` becomes every
column name but the last, each record gets the uniform weight `w`, the
tree is built from depth `0` (updating `deep`), and the full record set is
retained on the model.  `rows` is `data.values.tolist()` (each row ends
with its label) and `columns` is `data.columns.tolist()`. -/
def C45Classifier.train [LinearOrder V] (log2 : ℚ → ℚ)
    (m : C45Classifier V) (rows : List (List V)) (columns : List String)
    (w : ℚ) : C45Classifier V :=
  let attrs := columns.dropLast
  let weights := List.replicate rows.length w
  let tb := build_decision_tree log2 m.max_depth m.min_samples_split
    m.min_samples_leaf rows attrs weights 0 m.deep
  { m with
    weight := w
    attributes := some attrs
    tree := some tb.1
    data := some rows
    deep := tb.2 }

/-- The `C45Classifier.fit(data, label, weight)`: the pandas concatenation of
the feature table and the label column is external input conversion (out
of scope per the spec), so the embedded `fit` receives the already joined
rows and column names and performs `__train`.  The params dict it returns
is not modelled (no claim mentions it). -/
def C45Classifier.fit [LinearOrder V] (log2 : ℚ → ℚ) (m : C45Classifier V)
    (rows : List (List V)) (columns : List String) (w : ℚ) :
    C45Classifier V :=
  C45Classifier.train log2 m rows columns w

/-- The `C45Classifier.__classify(tree, instance)`: raises the dedicated
untrained-model error when `self.tree is None`; otherwise substitutes
`self.tree` for a `None` `tree` argument and runs the recursion.  The
`getD` defaults cover states `fit` can never produce (tree present but
attributes or data absent). -/
def C45Classifier.classify [LinearOrder V] (m : C45Classifier V)
    (tree : Option (Node V)) (record : List V) : Except String (Option V) :=
  match m.tree with
  | none => .error "Decision tree has not been trained yet!"
  | some root =>
    classifyAux (m.attributes.getD []) (m.data.getD []) (tree.getD root)
      record

/-- The `C45Classifier.predict(data)` on an already-tabular batch (the
`DataFrame` conversion is external; the dict branch is `predictDicts`).
`data[0]` raises `IndexError` on an empty batch; `len(self.attributes)`
raises `TypeError` before training; the arity check compares only the
FIRST row's width with the trained attribute count; then every record is
classified in order. -/
def C45Classifier.predict [LinearOrder V] (m : C45Classifier V)
    (data : List (List V)) : Except String (List (Option V)) :=
  match data with
  | [] => .error "IndexError: list index out of range"
  | r0 :: rest =>
    match m.attributes with
    | none => .error "TypeError: object of type NoneType has no len()"
    | some attrs =>
      if r0.length ≠ attrs.length then
        .error "Number of variables in data and attributes do not match!"
      else
        (r0 :: rest).mapM (fun r => m.classify none r)

/-- The `C45Classifier.predict` on a batch of dict records (source lines
231-232): `data = [list(d.values()) for d in data]` replaces each dict by
its values in insertion order; the keys are never consulted and no
re-alignment with `self.attributes` happens. -/
def C45Classifier.predictDicts [LinearOrder V] (m : C45Classifier V)
    (ds : List (List (String × V))) : Except String (List (Option V)) :=
  m.predict (ds.map (fun d => d.map Prod.snd))

/-- The `C45Classifier.rules()`: `build_rules(self.tree)`.  Note there is NO
untrained-model guard here (unlike `print_rules`): on an untrained model
`build_rules(None)` matches neither `isinstance` branch, so the empty rule
list is returned without error. -/
def C45Classifier.rules [LinearOrder V] (m : C45Classifier V)
    (vts : V → String) : List String :=
  match m.tree with
  | none => []
  | some root => buildRulesNode vts root false "" ""

/-- The `C45Classifier.summary()` as the tuple of statistics it prints
(instances, attributes, leaves, rules, depth): `len(self.data)` and
`len(self.attributes)` raise `TypeError` before training;
`self.tree.count_leaves()` and `self.tree.depth()` raise `AttributeError`
when the root is `None` or a Leaf. -/
def C45Classifier.summary [LinearOrder V] (m : C45Classifier V)
    (vts : V → String) : Except String (ℕ × ℕ × ℕ × ℕ × ℕ) := do
  let d ← match m.data with
    | none => Except.error "TypeError: object of type NoneType has no len()"
    | some d => Except.ok d
  let attrs ← match m.attributes with
    | none => Except.error "TypeError: object of type NoneType has no len()"
    | some a => Except.ok a
  let leaves ← match m.tree.bind Node.count_leaves with
    | none => Except.error "AttributeError: no attribute count_leaves"
    | some n => Except.ok n
  let rcount := (m.rules vts).length
  let dep ← match m.tree.bind Node.depth with
    | none => Except.error "AttributeError: no attribute depth"
    | some n => Except.ok n
  return (d.length, attrs.length, leaves, rcount, dep)

/-- The `C45Classifier.get_depth()`. -/
def C45Classifier.get_depth (m : C45Classifier V) : ℕ := m.deep

/-- A concrete, executable stand-in for `math.log2`, used only inside the
closed examples below: it returns `0` at `1` (as `log2` does) and `-1`
elsewhere.  No theorem relies on any property of the stand-in beyond its
computability. -/
def log2Stub (q : ℚ) : ℚ := if q = 1 then 0 else -1

/-- Training rows of the running concrete example: attribute `A` is column
0, attribute `B` column 1, and the class label column 2, all over `ℕ`. -/
def exRows : List (List ℕ) := [[0, 5, 8], [1, 5, 9]]

/-- Column names of the concrete example table (label column last). -/
def exCols : List String := ["A", "B", "L"]

/-- The concrete trained model of the running example. -/
def exModel : C45Classifier ℕ :=
  C45Classifier.fit log2Stub (C45Classifier.init none 2 1) exRows exCols 1

/-- Full evaluation of the example training run: the selector picks
attribute `A` (index 0, the perfectly separating one), producing a
Decision root with the two pure Leaves, retained attributes `["A", "B"]`
and data, and a reached depth of `1`. -/
theorem exModel_eq :
    exModel = ⟨some (Node.decision "A"
        [(0, Node.leaf (some 8) 1), (1, Node.leaf (some 9) 1)]),
      some ["A", "B"], some [[0, 5, 8], [1, 5, 9]], 1, none, 1, 2, 1⟩ := by
  norm_num [exModel, C45Classifier.fit, C45Classifier.train,
    C45Classifier.init, build_decision_tree, buildAux, exRows, exCols,
    select_best_attribute_c50, selFold, selStep, valueLoop, entropyQ,
    classCounts, addWeight, totalWeight, recLabel, split_data, attrValues,
    distinct, majority_class, log2Stub, List.range_succ, List.zip,
    List.zipWith, List.replicate, List.filter_cons, List.filterMap_cons,
    List.getLast?_cons_cons, List.getLast?_singleton, List.foldl_cons,
    List.getElem?_cons_zero, List.getElem?_cons_succ]
  simp [C45Classifier.mk.injEq]

/-- C4, counterexample: on a freshly constructed (never fitted) model,
`rules()` does NOT raise the untrained-model error — it has no guard at
all (unlike `print_rules`), and `build_rules(None)` matches neither
`isinstance` branch, so the call returns the empty list, a normal value.
This refutes the claim that all four operations raise `UntrainedModel`
before a successful fit. -/
theorem c4_untrained_counterexample :
    (C45Classifier.init (V := ℕ) none 2 1).rules (fun n => toString n)
      = [] := rfl

/-- C4, amended: before a successful fit only `__classify` raises the
dedicated untrained-model error; `predict` and `summary` do fail, but with
a generic `TypeError` from `len(None)` (`IndexError` first for an empty
batch), not the dedicated error; and `rules()` returns `[]` without
raising. -/
theorem c4_untrained_amended [LinearOrder V] (m : C45Classifier V)
    (h1 : m.tree = none) (h2 : m.attributes = none) (h3 : m.data = none)
    (t : Option (Node V)) (r r0 : List V) (rest : List (List V))
    (vts : V → String) :
    m.classify t r = .error "Decision tree has not been trained yet!"
      ∧ m.predict (r0 :: rest)
          = .error "TypeError: object of type NoneType has no len()"
      ∧ m.predict [] = .error "IndexError: list index out of range"
      ∧ m.rules vts = []
      ∧ m.summary vts
          = .error "TypeError: object of type NoneType has no len()" := by
  refine ⟨?_, ?_, rfl, ?_, ?_⟩
  · rw [C45Classifier.classify, h1]
  · rw [C45Classifier.predict, h2]
  · rw [C45Classifier.rules, h1]
  · rw [C45Classifier.summary, h3]
    rfl

/-- C4, witness for the amended theorem at the freshly constructed
model. -/
theorem c4_untrained_amended_witness :
    (C45Classifier.init (V := ℕ) none 2 1).classify none []
        = .error "Decision tree has not been trained yet!"
      ∧ (C45Classifier.init (V := ℕ) none 2 1).predict [[3]]
          = .error "TypeError: object of type NoneType has no len()" := by
  have h := c4_untrained_amended (C45Classifier.init (V := ℕ) none 2 1)
    rfl rfl rfl none [] [3] [] (fun n => toString n)
  exact ⟨h.1, h.2.1⟩

/-- C8, counterexample: `predict` width-checks only `data[0]`.  On the
trained example model (two attributes), a batch whose second instance has
only one field (`[1]`) is accepted and classified — `predict` returns
labels instead of raising the arity-mismatch error the claim promises for
any mismatching instance. -/
theorem c8_arity_counterexample :
    exModel.attributes = some ["A", "B"]
      ∧ ([1] : List ℕ).length ≠ ["A", "B"].length
      ∧ exModel.predict [[0, 5], [1]] = .ok [some 8, some 9] := by
  refine ⟨by rw [exModel_eq], by decide, ?_⟩
  rw [exModel_eq]
  simp [C45Classifier.predict, C45Classifier.classify, classifyAux,
    classifySearch, List.indexOf?, List.findIdx?, List.mapM.loop,
    Bind.bind, Except.bind, Pure.pure, Except.pure]

/-- C8, amended: `predict` raises the arity-mismatch error exactly on the
first instance's width — if `data[0]`'s field count differs from the
trained attribute count the error is raised, and if it matches, every
record (the later ones unchecked) is classified. -/
theorem c8_arity_amended [LinearOrder V] (m : C45Classifier V)
    (attrs : List String) (r0 : List V) (rest : List (List V))
    (hat : m.attributes = some attrs) :
    (r0.length ≠ attrs.length →
        m.predict (r0 :: rest)
          = .error "Number of variables in data and attributes do not match!")
      ∧ (r0.length = attrs.length →
        m.predict (r0 :: rest)
          = (r0 :: rest).mapM (fun r => m.classify none r)) := by
  constructor
  · intro hne
    rw [C45Classifier.predict, hat]
    simp [hne]
  · intro heq
    rw [C45Classifier.predict, hat]
    simp [heq]

/-- C8, witness for the amended theorem: a first instance of three fields
against the two trained attributes raises the arity error. -/
theorem c8_arity_amended_witness :
    exModel.predict [[9, 9, 9]]
      = .error "Number of variables in data and attributes do not match!" := by
  exact (c8_arity_amended exModel ["A", "B"] [9, 9, 9] []
    (by rw [exModel_eq])).1 (by decide)

/-- C10: `predict` on dict records uses each dict's values in insertion
order and ignores the keys entirely — batches with identical value
sequences are classified identically whatever their keys, and a dict is
classified exactly as the positional instance made of its value sequence,
with no re-alignment to the trained attribute names. -/
theorem c10_dict_values_order [LinearOrder V] (m : C45Classifier V)
    (ds1 ds2 : List (List (String × V)))
    (h : ds1.map (fun d => d.map Prod.snd)
        = ds2.map (fun d => d.map Prod.snd)) :
    m.predictDicts ds1 = m.predictDicts ds2
      ∧ m.predictDicts ds1
          = m.predict (ds1.map (fun d => d.map Prod.snd)) := by
  constructor
  · rw [C45Classifier.predictDicts, C45Classifier.predictDicts, h]
  · rfl

/-- C10, witness: on the trained example model, renaming keys (same value
order) does not change the prediction, while reordering the same key-value
pairs feeds a different positional instance to the tree — the first dict
follows edge `0` to label `8`, the reordered one triggers the unseen-value
fallback and yields label `9`. -/
theorem c10_dict_values_order_witness :
    exModel.predictDicts [[("A", 0), ("B", 5)]]
        = exModel.predictDicts [[("X", 0), ("Y", 5)]]
      ∧ exModel.predictDicts [[("A", 0), ("B", 5)]] = .ok [some 8]
      ∧ exModel.predictDicts [[("B", 5), ("A", 0)]] = .ok [some 9] := by
  refine ⟨(c10_dict_values_order exModel [[("A", 0), ("B", 5)]]
    [[("X", 0), ("Y", 5)]] rfl).1, ?_, ?_⟩
  · rw [C45Classifier.predictDicts, exModel_eq]
    simp [C45Classifier.predict, C45Classifier.classify, classifyAux,
      classifySearch, List.indexOf?, List.findIdx?, List.mapM.loop,
      Bind.bind, Except.bind, Pure.pure, Except.pure]
  · rw [C45Classifier.predictDicts, exModel_eq]
    simp [C45Classifier.predict, C45Classifier.classify, classifyAux,
      classifySearch, List.indexOf?, List.findIdx?, unseenFallback,
      leafLabels, distinct, pyMaxOpt, omax, List.mapM.loop,
      Bind.bind, Except.bind, Pure.pure, Except.pure]

/-- Unfolding one selector iteration. -/
theorem selFold_succ [DecidableEq V] (log2 : ℚ → ℚ) (data : List (List V))
    (weights : List ℚ) (te : ℚ) (k : ℕ) :
    selFold log2 data weights te (k + 1)
      = selStep log2 data weights te (selFold log2 data weights te k) k := by
  rw [selFold, selFold, List.range_succ, List.foldl_append]
  simp

/-- A selector iteration either records its own index or keeps the
previous best. -/
theorem selStep_best [DecidableEq V] (log2 : ℚ → ℚ) (data : List (List V))
    (weights : List ℚ) (te : ℚ) (st : SelState) (i : ℕ) :
    (selStep log2 data weights te st i).best = some i
      ∨ (selStep log2 data weights te st i).best = st.best := by
  simp only [selStep]
  split <;> split <;> simp

/-- Any index the selector records is one of the scored loop indices. -/
theorem selFold_best_lt [DecidableEq V] (log2 : ℚ → ℚ)
    (data : List (List V)) (weights : List ℚ) (te : ℚ) :
    ∀ k i, (selFold log2 data weights te k).best = some i → i < k := by
  intro k
  induction k with
  | zero => intro i h; simp [selFold] at h
  | succ n ih =>
    intro i h
    rw [selFold_succ] at h
    rcases selStep_best log2 data weights te
        (selFold log2 data weights te n) n with h2 | h2 <;> rw [h2] at h
    · cases h
      omega
    · exact Nat.lt_succ_of_lt (ih i h)

/-- The attribute index returned by `__select_best_attribute_c50` is a
valid position in the candidate attribute list (the loop ranges over
exactly those indices). -/
theorem select_some_lt [DecidableEq V] (log2 : ℚ → ℚ)
    (data : List (List V)) (attributes : List String) (weights : List ℚ)
    (best : ℕ)
    (h : select_best_attribute_c50 log2 data attributes weights
      = some best) : best < attributes.length :=
  selFold_best_lt log2 data weights _ attributes.length best h

/-- On an empty record set every gain ratio is `0`, never exceeding the
initial best of `0.0`, so no attribute is selected. -/
theorem select_empty_data [DecidableEq V] (log2 : ℚ → ℚ)
    (attributes : List String) (weights : List ℚ) :
    select_best_attribute_c50 log2 ([] : List (List V)) attributes weights
      = none := by
  have key : ∀ k, selFold log2 ([] : List (List V)) weights
      (entropyQ log2 ([] : List (List V)) weights) k = ⟨none, 0, 0⟩ := by
    intro k
    induction k with
    | zero => rfl
    | succ n ih =>
      rw [selFold_succ, ih]
      simp [selStep, valueLoop, attrValues, distinct, entropyQ, classCounts]
  rw [select_best_attribute_c50, key]

/-- With no candidate attributes the loop body never runs and no
attribute is selected. -/
theorem select_no_attributes [DecidableEq V] (log2 : ℚ → ℚ)
    (data : List (List V)) (attributes : List String) (weights : List ℚ)
    (h : attributes.length = 0) :
    select_best_attribute_c50 log2 data attributes weights = none := by
  rw [select_best_attribute_c50, h]
  rfl

/-- Length of the candidate list with position `best` removed. -/
theorem removed_attr_length {α : Type} (l : List α) (i : ℕ)
    (h : i < l.length) :
    (l.take i ++ l.drop (i + 1)).length = l.length - 1 := by
  simp only [List.length_append, List.length_take, List.length_drop]
  omega

/-- A `foldl` whose step preserves an upper bound on the second component
keeps the bound. -/
theorem foldl_snd_bound {α β : Type} (F : List β × ℕ → α → List β × ℕ)
    (B : ℕ) (hF : ∀ acc v, acc.2 ≤ B → (F acc v).2 ≤ B) :
    ∀ (values : List α) (acc : List β × ℕ), acc.2 ≤ B →
      (values.foldl F acc).2 ≤ B := by
  intro values
  induction values with
  | nil => exact fun acc h => h
  | cons v vs ih =>
    intro acc h
    rw [List.foldl_cons]
    exact ih _ (hF acc v h)

/-- The `foldl` respects pointwise-equal step functions. -/
theorem foldl_congr_of_step {α β : Type} (F G : β → α → β)
    (h : ∀ acc v, F acc v = G acc v) :
    ∀ (values : List α) (acc : β), values.foldl F acc = values.foldl G acc := by
  have hFG : F = G := funext fun a => funext fun v => h a v
  intro values acc
  rw [hFG]

/-- The `__build_decision_tree` recursion consumes at most one unit of
budget per removed candidate attribute: with the candidate list no longer
than `f`, budgets `f + 1` and `f` compute the same result. -/
theorem buildAux_step_stable [LinearOrder V] (log2 : ℚ → ℚ)
    (maxD : Option ℕ) (mss msl : ℕ) :
    ∀ (f : ℕ) (data : List (List V)) (attributes : List String)
      (weights : List ℚ) (depth deep : ℕ), attributes.length ≤ f →
      buildAux log2 maxD mss msl (f + 1) data attributes weights depth deep
        = buildAux log2 maxD mss msl f data attributes weights depth
            deep := by
  intro f
  induction f with
  | zero =>
    intro data attrs w depth deep hlen
    rw [buildAux, buildAux]
    dsimp only
    split
    · rfl
    · split_ifs with h1 h2 h3 h4
      · rfl
      · rfl
      · rfl
      · rfl
      · split
        · rfl
        · rename_i best hsel
          have := select_no_attributes log2 data attrs w
            (Nat.le_zero.mp hlen)
          rw [this] at hsel
          cases hsel
  | succ g ih =>
    intro data attrs w depth deep hlen
    rw [buildAux, buildAux]
    dsimp only
    split
    · rfl
    · split_ifs with h1 h2 h3 h4
      · rfl
      · rfl
      · rfl
      · rfl
      · split
        · rfl
        · rename_i best hsel
          have hb := select_some_lt log2 data attrs w best hsel
          have h2l := removed_attr_length attrs best hb
          refine congrArg
            (fun r : List (V × Node V) × ℕ => (Node.decision _ r.1, r.2))
            (foldl_congr_of_step _ _ ?_ _ _)
          intro acc v
          dsimp only
          split
          · rfl
          · rw [ih _ _ _ _ _ (by omega)]

/-- Any budget of at least `attributes.length` computes the same result as
the canonical budget `attributes.length` — the candidate attribute list
strictly shrinks at each Decision node, so that much budget always
suffices. -/
theorem buildAux_fuel_stable [LinearOrder V] (log2 : ℚ → ℚ)
    (maxD : Option ℕ) (mss msl : ℕ) :
    ∀ (fuel : ℕ) (data : List (List V)) (attributes : List String)
      (weights : List ℚ) (depth deep : ℕ), attributes.length ≤ fuel →
      buildAux log2 maxD mss msl fuel data attributes weights depth deep
        = build_decision_tree log2 maxD mss msl data attributes weights
            depth deep := by
  intro fuel
  induction fuel with
  | zero =>
    intro data attrs w depth deep h
    rw [build_decision_tree, Nat.le_zero.mp h]
  | succ f ihf =>
    intro data attrs w depth deep h
    by_cases hc : attrs.length = f + 1
    · rw [build_decision_tree, hc]
    · have hle : attrs.length ≤ f := by omega
      rw [buildAux_step_stable log2 maxD mss msl f data attrs w depth deep
        hle]
      exact ihf data attrs w depth deep hle

/-- The `deep` counter of a build never exceeds
`max deep (depth + attributes.length)`: each Decision node consumes one
candidate attribute while pushing the depth by one. -/
theorem buildAux_deep_le [LinearOrder V] (log2 : ℚ → ℚ)
    (maxD : Option ℕ) (mss msl : ℕ) :
    ∀ (fuel : ℕ) (data : List (List V)) (attributes : List String)
      (weights : List ℚ) (depth deep : ℕ),
      (buildAux log2 maxD mss msl fuel data attributes weights depth
        deep).2 ≤ max deep (depth + attributes.length) := by
  intro fuel
  induction fuel with
  | zero =>
    intro data attrs w depth deep
    rw [buildAux]
    dsimp only
    split
    · exact le_max_left _ _
    · split_ifs with h1 h2 h3 h4
      · exact le_max_left _ _
      · exact le_max_left _ _
      · exact le_max_left _ _
      · exact le_max_left _ _
      · split
        · exact le_max_left _ _
        · rename_i best hsel
          have hb := select_some_lt log2 data attrs w best hsel
          exact max_le_max le_rfl (by omega)
  | succ f ih =>
    intro data attrs w depth deep
    rw [buildAux]
    dsimp only
    split
    · exact le_max_left _ _
    · split_ifs with h1 h2 h3 h4
      · exact le_max_left _ _
      · exact le_max_left _ _
      · exact le_max_left _ _
      · exact le_max_left _ _
      · split
        · exact le_max_left _ _
        · rename_i best hsel
          have hb := select_some_lt log2 data attrs w best hsel
          have h2l := removed_attr_length attrs best hb
          have heq : depth + 1 + (attrs.length - 1)
              = depth + attrs.length := by omega
          apply foldl_snd_bound _ (max deep (depth + attrs.length))
          · intro acc v hacc
            dsimp only
            split
            · exact hacc
            · refine le_trans (ih _ _ _ _ _) ?_
              rw [h2l, heq]
              exact max_le hacc (le_max_right _ _)
          · exact max_le_max le_rfl (by omega)

/-- C9: the tree builder needs no more recursion budget than the number of
candidate attributes — any budget of at least `attributes.length` gives
the very same result (the candidate list strictly shrinks by one at each
Decision node, which is why the recursion terminates) — and the maximum
recursion depth reached by a training-entry build (`depth = 0`,
`deep = 0`), as recorded in the returned `deep` counter, is at most the
number of attributes. -/
theorem c9_builder_terminates [LinearOrder V] (log2 : ℚ → ℚ)
    (maxD : Option ℕ) (mss msl : ℕ) (data : List (List V))
    (attributes : List String) (weights : List ℚ) (depth deep : ℕ) :
    (∀ fuel, attributes.length ≤ fuel →
        buildAux log2 maxD mss msl fuel data attributes weights depth deep
          = build_decision_tree log2 maxD mss msl data attributes weights
              depth deep)
      ∧ (build_decision_tree log2 maxD mss msl data attributes weights 0
          0).2 ≤ attributes.length := by
  constructor
  · intro fuel hf
    exact buildAux_fuel_stable log2 maxD mss msl fuel data attributes
      weights depth deep hf
  · have := buildAux_deep_le log2 maxD mss msl attributes.length data
      attributes weights 0 0
    simpa [build_decision_tree] using this

/-- C9, witness: on the concrete example run, an over-generous budget of
`7` agrees with the canonical budget, and the reached depth (`1`) is
bounded by the attribute count (`2`). -/
theorem c9_builder_terminates_witness :
    buildAux log2Stub none 2 1 7 exRows ["A", "B"]
        [1, 1] 0 0
      = build_decision_tree log2Stub none 2 1 exRows ["A", "B"] [1, 1] 0 0
      ∧ (build_decision_tree log2Stub none 2 1 exRows ["A", "B"] [1, 1] 0
          0).2 ≤ (["A", "B"] : List String).length := by
  exact ⟨(c9_builder_terminates log2Stub none 2 1 exRows ["A", "B"] [1, 1]
      0 0).1 7 (by decide),
    (c9_builder_terminates log2Stub none 2 1 exRows ["A", "B"] [1, 1] 0
      0).2⟩

/-- A `foldl` whose step appends to the first component and threads a
running maximum through the second factors the initial maximum out. -/
theorem foldl_max_thread {α β : Type} (a : ℕ)
    (G : List β × ℕ → α → List β × ℕ)
    (hG : ∀ l y v, G (l, max a y) v
      = ((G (l, y) v).1, max a ((G (l, y) v).2))) :
    ∀ (values : List α) (l : List β) (y : ℕ),
      values.foldl G (l, max a y)
        = ((values.foldl G (l, y)).1, max a (values.foldl G (l, y)).2) := by
  intro values
  induction values with
  | nil => intro l y; rfl
  | cons v vs ih =>
    intro l y
    rw [List.foldl_cons, List.foldl_cons, hG]
    exact ih (G (l, y) v).1 (G (l, y) v).2

/-- The `deep` counter only accumulates: building with an incoming counter
`max a b` yields the same node as building with `b`, and the counter
`max a` of that build's counter.  (In particular the built tree never
depends on the incoming counter.) -/
theorem buildAux_deep_thread [LinearOrder V] (log2 : ℚ → ℚ)
    (maxD : Option ℕ) (mss msl : ℕ) :
    ∀ (fuel : ℕ) (data : List (List V)) (attributes : List String)
      (weights : List ℚ) (depth a b : ℕ),
      buildAux log2 maxD mss msl fuel data attributes weights depth
          (max a b)
        = ((buildAux log2 maxD mss msl fuel data attributes weights depth
              b).1,
           max a (buildAux log2 maxD mss msl fuel data attributes weights
              depth b).2) := by
  intro fuel
  induction fuel with
  | zero =>
    intro data attrs w depth a b
    rw [buildAux, buildAux]
    dsimp only
    split
    · rfl
    · split_ifs with h1 h2 h3 h4
      · rfl
      · rfl
      · rfl
      · rfl
      · split
        · rfl
        · rw [Nat.max_assoc]
  | succ f ih =>
    intro data attrs w depth a b
    rw [buildAux, buildAux]
    dsimp only
    split
    · rfl
    · split_ifs with h1 h2 h3 h4
      · rfl
      · rfl
      · rfl
      · rfl
      · split
        · rfl
        · rename_i best hsel
          rw [Nat.max_assoc]
          refine congrArg
            (fun r : List (V × Node V) × ℕ => (Node.decision _ r.1, r.2))
            (foldl_max_thread a _ ?_ _ _ _)
          intro l y v
          dsimp only
          split
          · rfl
          · rw [ih]

/-- With `max_depth` configured as `D` and the entry depth at most `D`, the
builder never pushes the `deep` counter beyond `max deep D`: a Decision
node is only created when `depth ≠ D`. -/
theorem buildAux_deep_le_maxD [LinearOrder V] (log2 : ℚ → ℚ) (D : ℕ)
    (mss msl : ℕ) :
    ∀ (fuel : ℕ) (data : List (List V)) (attributes : List String)
      (weights : List ℚ) (depth deep : ℕ), depth ≤ D →
      (buildAux log2 (some D) mss msl fuel data attributes weights depth
        deep).2 ≤ max deep D := by
  intro fuel
  induction fuel with
  | zero =>
    intro data attrs w depth deep hd
    rw [buildAux]
    dsimp only
    split
    · exact le_max_left _ _
    · split_ifs with h1 h2 h3 h4
      · exact le_max_left _ _
      · exact le_max_left _ _
      · exact le_max_left _ _
      · exact le_max_left _ _
      · split
        · exact le_max_left _ _
        · have hne : depth ≠ D := fun h => h2 (by rw [h])
          exact max_le_max le_rfl (by omega)
  | succ f ih =>
    intro data attrs w depth deep hd
    rw [buildAux]
    dsimp only
    split
    · exact le_max_left _ _
    · split_ifs with h1 h2 h3 h4
      · exact le_max_left _ _
      · exact le_max_left _ _
      · exact le_max_left _ _
      · exact le_max_left _ _
      · split
        · exact le_max_left _ _
        · have hne : depth ≠ D := fun h => h2 (by rw [h])
          apply foldl_snd_bound _ (max deep D)
          · intro acc v hacc
            dsimp only
            split
            · exact hacc
            · refine le_trans (ih _ _ _ _ _ (by omega)) ?_
              exact max_le hacc (le_max_right _ _)
          · exact max_le_max le_rfl (by omega)

/-- A sequence of `fit` calls on one model object, each with its rows,
column names and uniform weight. -/
def fitSeq [LinearOrder V] (log2 : ℚ → ℚ) (m : C45Classifier V)
    (runs : List (List (List V) × List String × ℚ)) : C45Classifier V :=
  runs.foldl (fun m r => C45Classifier.fit log2 m r.1 r.2.1 r.2.2) m

/-- The maximum recursion depth one training run reaches on its own
(counter started from `0`). -/
def runReach [LinearOrder V] (log2 : ℚ → ℚ) (maxD : Option ℕ)
    (mss msl : ℕ) (rows : List (List V)) (columns : List String) (w : ℚ) :
    ℕ :=
  (build_decision_tree log2 maxD mss msl rows columns.dropLast
    (List.replicate rows.length w) 0 0).2

/-- One `fit` leaves `deep` at the maximum of its previous value and the
depth the new run reached on its own — `__train` never resets it. -/
theorem fit_deep_eq [LinearOrder V] (log2 : ℚ → ℚ) (m : C45Classifier V)
    (rows : List (List V)) (cols : List String) (w : ℚ) :
    (C45Classifier.fit log2 m rows cols w).deep
      = max m.deep (runReach log2 m.max_depth m.min_samples_split
          m.min_samples_leaf rows cols w) := by
  show (build_decision_tree log2 m.max_depth m.min_samples_split
      m.min_samples_leaf rows cols.dropLast
      (List.replicate rows.length w) 0 m.deep).2 = _
  rw [build_decision_tree, runReach, build_decision_tree]
  rw [show m.deep = max m.deep 0 from (Nat.max_zero m.deep).symm]
  rw [buildAux_deep_thread]
  simp

/-- A `fit` call does not touch the three hyperparameters. -/
theorem fit_params_eq [LinearOrder V] (log2 : ℚ → ℚ) (m : C45Classifier V)
    (rows : List (List V)) (cols : List String) (w : ℚ) :
    (C45Classifier.fit log2 m rows cols w).max_depth = m.max_depth
      ∧ (C45Classifier.fit log2 m rows cols w).min_samples_split
          = m.min_samples_split
      ∧ (C45Classifier.fit log2 m rows cols w).min_samples_leaf
          = m.min_samples_leaf :=
  ⟨rfl, rfl, rfl⟩

/-- Across a `fit` sequence, `deep` folds the per-run reached depths with
`max` from its starting value. -/
theorem fitSeq_deep [LinearOrder V] (log2 : ℚ → ℚ) (maxD : Option ℕ)
    (mss msl : ℕ) :
    ∀ (runs : List (List (List V) × List String × ℚ))
      (m : C45Classifier V), m.max_depth = maxD →
      m.min_samples_split = mss → m.min_samples_leaf = msl →
      (fitSeq log2 m runs).deep
        = (runs.map (fun r => runReach log2 maxD mss msl r.1 r.2.1
            r.2.2)).foldl max m.deep := by
  intro runs
  induction runs with
  | nil => intro m h1 h2 h3; rfl
  | cons r rs ih =>
    intro m h1 h2 h3
    rw [fitSeq, List.foldl_cons, List.map_cons, List.foldl_cons]
    rw [show List.foldl (fun m r => C45Classifier.fit log2 m r.1 r.2.1
      r.2.2) (C45Classifier.fit log2 m r.1 r.2.1 r.2.2) rs
      = fitSeq log2 (C45Classifier.fit log2 m r.1 r.2.1 r.2.2) rs from rfl]
    rw [ih (C45Classifier.fit log2 m r.1 r.2.1 r.2.2) (by exact h1)
      (by exact h2) (by exact h3)]
    rw [fit_deep_eq, h1, h2, h3]

/-- C6, counterexample: after fitting the example model a second time on a
pure single-label dataset, the second run itself reaches recursion depth
`0`, yet `get_depth` still answers `1`, the maximum of the FIRST run —
`__train` never resets `self.deep`, so `get_depth` is not the maximum
depth of the last training run. -/
theorem c6_get_depth_counterexample :
    (C45Classifier.fit log2Stub exModel [[0, 0, 8]] exCols 1).get_depth = 1
      ∧ runReach log2Stub none 2 1 [[0, 0, 8]] exCols 1 = 0 := by
  constructor
  · rw [C45Classifier.get_depth, fit_deep_eq, exModel_eq]
    simp [runReach, build_decision_tree, buildAux, distinct, recLabel,
      exCols]
  · simp [runReach, build_decision_tree, buildAux, distinct, recLabel,
      exCols]

/-- C6, amended: `get_depth` after a sequence of fits returns the maximum
over ALL the runs of the depth each run reached (the counter is never
reset between fits), and — because the hyperparameters are never changed
by `fit` — when `max_depth` is configured it never exceeds it. -/
theorem c6_get_depth_amended [LinearOrder V] (log2 : ℚ → ℚ)
    (maxD : Option ℕ) (D mss msl : ℕ)
    (runs : List (List (List V) × List String × ℚ)) :
    (fitSeq log2 (C45Classifier.init (V := V) maxD mss msl) runs).get_depth
        = (runs.map (fun r => runReach log2 maxD mss msl r.1 r.2.1
            r.2.2)).foldl max 0
      ∧ (fitSeq log2 (C45Classifier.init (V := V) (some D) mss msl)
          runs).get_depth ≤ D := by
  constructor
  · exact fitSeq_deep log2 maxD mss msl runs _ rfl rfl rfl
  · rw [C45Classifier.get_depth,
      fitSeq_deep log2 (some D) mss msl runs _ rfl rfl rfl]
    have key : ∀ (l : List ℕ) (s : ℕ), s ≤ D → (∀ x ∈ l, x ≤ D) →
        l.foldl max s ≤ D := by
      intro l
      induction l with
      | nil => intro s hs _; exact hs
      | cons x xs ih =>
        intro s hs hall
        rw [List.foldl_cons]
        exact ih _ (max_le hs (hall x (List.mem_cons_self x xs)))
          (fun y hy => hall y (List.mem_cons_of_mem x hy))
    apply key _ _ (Nat.zero_le D)
    intro x hx
    obtain ⟨r, _, rfl⟩ := List.mem_map.mp hx
    have := buildAux_deep_le_maxD log2 D mss msl r.2.1.dropLast.length
      r.1 r.2.1.dropLast (List.replicate r.1.length r.2.2) 0 0
      (Nat.zero_le D)
    simpa [runReach, build_decision_tree] using this

mutual

/-- No Decision node in the tree has an empty children dict (the invariant
every trained tree satisfies: Decision nodes are only created on a
nonempty record set, whose chosen attribute then has at least one observed
value). -/
def goodNode : Node V → Bool
  | Node.leaf _ _ => true
  | Node.decision _ ch => !ch.isEmpty && goodChildren ch

/-- The `goodNode` over a children dict. -/
def goodChildren : List (V × Node V) → Bool
  | [] => true
  | (_, c) :: rest => goodNode c && goodChildren rest

end

/-- The `count_leaves()` as computable on any node: `1` for a Leaf child seen
from its parent's loop, `decisionLeaves` for a Decision node. -/
def leafCountOf : Node V → ℕ
  | Node.leaf _ _ => 1
  | Node.decision _ ch => decisionLeaves ch

/-- The `goodChildren` distributes over append. -/
theorem goodChildren_append (l1 l2 : List (V × Node V)) :
    goodChildren (l1 ++ l2) = (goodChildren l1 && goodChildren l2) := by
  induction l1 with
  | nil => simp [goodChildren]
  | cons hd rest ih =>
    obtain ⟨v, c⟩ := hd
    simp [goodChildren, ih, Bool.and_assoc]

mutual

/-- On a tree without childless Decision nodes, `build_rules` emits
exactly one rule per Leaf counted by `count_leaves`, whatever the
accumulated rule prefix. -/
theorem rulesLen_node [LinearOrder V] (vts : V → String) :
    ∀ (n : Node V), goodNode n → ∀ (b : Bool) (e r : String),
      (buildRulesNode vts n b e r).length = leafCountOf n
  | Node.leaf lab w, _, b, e, r => by
    simp [buildRulesNode, leafCountOf]
  | Node.decision a ch, hg, b, e, r => by
    simp only [goodNode, Bool.and_eq_true, Bool.not_eq_true'] at hg
    rw [buildRulesNode]
    rw [rulesLen_children vts ch hg.2]
    rw [leafCountOf, decisionLeaves, if_neg]
    simp [hg.1]

/-- Loop form of `rulesLen_node` over a children dict. -/
theorem rulesLen_children [LinearOrder V] (vts : V → String) :
    ∀ (ch : List (V × Node V)), goodChildren ch → ∀ (r : String),
      (buildRulesChildren vts ch r).length = countChildLeaves ch
  | [], _, r => by simp [buildRulesChildren, countChildLeaves]
  | (v, c) :: rest, hg, r => by
    simp only [goodChildren, Bool.and_eq_true] at hg
    rw [buildRulesChildren, List.length_append]
    rw [rulesLen_node vts c hg.1, rulesLen_children vts rest hg.2]
    cases c with
    | leaf lab w => rw [countChildLeaves, leafCountOf]
    | decision a2 g2 => rw [countChildLeaves, leafCountOf]

end

/-- Rows surviving a split carry one field less. -/
theorem split_data_rect [DecidableEq V] (data : List (List V))
    (w : List ℚ) (i : ℕ) (v : V) (L : ℕ)
    (hrect : ∀ r ∈ data, r.length = L + 1) (hi : i < L + 1) :
    ∀ r2 ∈ (split_data data i v w).1, r2.length = L := by
  intro r2 h2
  rw [split_data] at h2
  dsimp only at h2
  obtain ⟨rw2, hrw2, rfl⟩ := List.mem_map.mp h2
  obtain ⟨r, q⟩ := rw2
  have hzip := (List.mem_filter.mp hrw2).1
  have hr : r ∈ data := (List.of_mem_zip hzip).1
  have hlen := hrect r hr
  simp only [List.length_append, List.length_take, List.length_drop, hlen]
  omega

/-- On a nonempty record set whose first member is wide enough, the
observed-value list of an attribute is nonempty. -/
theorem attrValues_ne_nil [DecidableEq V] (data : List (List V)) (i : ℕ)
    (r0 : List V) (h0 : r0 ∈ data) (hi : i < r0.length) :
    attrValues data i ≠ [] := by
  have hv : ∃ v, r0.get? i = some v := by
    cases hv : r0.get? i with
    | none => exact absurd (List.get?_eq_none.mp hv) (by omega)
    | some v => exact ⟨v, rfl⟩
  obtain ⟨v, hv⟩ := hv
  have hmem : v ∈ data.filterMap (fun r => r.get? i) :=
    List.mem_filterMap.mpr ⟨r0, h0, hv⟩
  intro hnil
  have := (mem_distinct_iff _ v).mpr hmem
  rw [attrValues] at hnil
  rw [hnil] at this
  exact List.not_mem_nil v this

/-- A fold whose step appends exactly one well-formed child entry keeps
the children dict `good` and grows it by one entry per value. -/
theorem foldl_good {α : Type} (F : List (V × Node V) × ℕ → α →
      List (V × Node V) × ℕ)
    (hF : ∀ acc v, ∃ x nd k, F acc v = (acc.1 ++ [(x, nd)], k)
      ∧ goodNode nd) :
    ∀ (values : List α) (acc : List (V × Node V) × ℕ),
      goodChildren acc.1 →
      goodChildren (values.foldl F acc).1
        ∧ (values.foldl F acc).1.length = acc.1.length + values.length := by
  intro values
  induction values with
  | nil => intro acc h; exact ⟨h, by simp⟩
  | cons v vs ih =>
    intro acc h
    obtain ⟨x, nd, k, hFv, hgood⟩ := hF acc v
    rw [List.foldl_cons, hFv]
    have hgc : goodChildren (acc.1 ++ [(x, nd)]) = true := by
      rw [goodChildren_append]
      simp [h, goodChildren, hgood]
    obtain ⟨ih1, ih2⟩ := ih (acc.1 ++ [(x, nd)], k) hgc
    refine ⟨ih1, ?_⟩
    have hred : ((acc.1 ++ [(x, nd)], k) :
        List (V × Node V) × ℕ).1.length = acc.1.length + 1 := by
      simp
    rw [ih2, hred]
    simp only [List.length_cons]
    omega

/-- A Decision node whose children dict is built by appending one
well-formed entry per observed value, with at least one value, is
`good`. -/
theorem foldl_good_node {α : Type} (bname : String)
    (F : List (V × Node V) × ℕ → α → List (V × Node V) × ℕ)
    (values : List α) (d : ℕ)
    (hF : ∀ acc v, ∃ x nd k, F acc v = (acc.1 ++ [(x, nd)], k)
      ∧ goodNode nd)
    (hvne : values ≠ []) :
    goodNode (Node.decision bname
      (values.foldl F (([] : List (V × Node V)), d)).1) = true := by
  obtain ⟨hgood, hlen⟩ := foldl_good F hF values ([], d) rfl
  simp only [goodNode, Bool.and_eq_true, Bool.not_eq_true']
  refine ⟨?_, hgood⟩
  have hne0 : (values.foldl F (([] : List (V × Node V)), d)).1.length
      ≠ 0 := by
    rw [hlen]
    simp only [List.length_nil, Nat.zero_add]
    intro h0
    exact hvne (List.length_eq_zero.mp h0)
  cases hl : (values.foldl F (([] : List (V × Node V)), d)).1 with
  | nil => rw [hl] at hne0; simp at hne0
  | cons a as => rfl

/-- On rectangular data (each record one field wider than the candidate
attribute list), the builder never creates a childless Decision node. -/
theorem buildAux_good [LinearOrder V] (log2 : ℚ → ℚ) (maxD : Option ℕ)
    (mss msl : ℕ) :
    ∀ (fuel : ℕ) (data : List (List V)) (attributes : List String)
      (weights : List ℚ) (depth deep : ℕ),
      (∀ r ∈ data, r.length = attributes.length + 1) →
      goodNode (buildAux log2 maxD mss msl fuel data attributes weights
        depth deep).1 = true := by
  intro fuel
  induction fuel with
  | zero =>
    intro data attrs w depth deep hrect
    rw [buildAux]
    dsimp only
    split
    · rfl
    · split_ifs with h1 h2 h3 h4
      · rfl
      · rfl
      · rfl
      · rfl
      · split
        · rfl
        · rfl
  | succ f ih =>
    intro data attrs w depth deep hrect
    rw [buildAux]
    dsimp only
    split
    · rfl
    · split_ifs with h1 h2 h3 h4
      · rfl
      · rfl
      · rfl
      · rfl
      · split
        · rfl
        · rename_i best hsel
          have hb := select_some_lt log2 data attrs w best hsel
          have hdata : data ≠ [] := by
            intro hd
            rw [hd, select_empty_data] at hsel
            cases hsel
          obtain ⟨r0, hr0⟩ := List.exists_mem_of_ne_nil data hdata
          have hvne : attrValues data best ≠ [] :=
            attrValues_ne_nil data best r0 hr0
              (by rw [hrect r0 hr0]; omega)
          apply foldl_good_node
          · intro acc v
            dsimp only
            split
            · exact ⟨v, Node.leaf (majority_class data w) _, acc.2, rfl,
                rfl⟩
            · refine ⟨v, _, _, rfl, ?_⟩
              apply ih
              intro r2 hr2
              have hL := split_data_rect data w best v attrs.length
                hrect (by omega) r2 hr2
              rw [removed_attr_length attrs best hb]
              omega
          · exact hvne

/-- C7, counterexample: a pure (single-label) training set trains to a
single Leaf root.  On that trained model `len(rules())` is `1`, but
`self.tree.count_leaves()` cannot be computed at all: `_LeafNode` has no
`count_leaves` method, so the call raises `AttributeError` instead of
returning `1`. -/
theorem c7_count_leaves_counterexample :
    (C45Classifier.fit log2Stub (C45Classifier.init none 2 1) [[0, 5, 8]]
        exCols 1).tree = some (Node.leaf (some 8) 1)
      ∧ (C45Classifier.fit log2Stub (C45Classifier.init none 2 1)
          [[0, 5, 8]] exCols 1).tree.bind Node.count_leaves = none
      ∧ ((C45Classifier.fit log2Stub (C45Classifier.init none 2 1)
          [[0, 5, 8]] exCols 1).rules (fun n => toString n)).length
          = 1 := by
  have htree : (C45Classifier.fit log2Stub (C45Classifier.init none 2 1)
      [[0, 5, 8]] exCols 1).tree = some (Node.leaf (some 8) 1) := by
    show some (build_decision_tree log2Stub none 2 1 [[0, 5, 8]]
      exCols.dropLast (List.replicate 1 1) 0 0).1 = _
    norm_num [build_decision_tree, buildAux, distinct, recLabel, exCols,
      List.replicate, List.getLast?_cons_cons, List.getLast?_singleton]
  refine ⟨htree, ?_, ?_⟩
  · rw [htree]
    rfl
  · rw [C45Classifier.rules, htree]
    simp [buildRulesNode]

/-- C7, amended: on every trained model built from rectangular data, when
the tree root is a Decision node, `count_leaves()` equals `len(rules())`;
when the root is a single Leaf (pure training set), `rules()` still
returns exactly one rule but `count_leaves()` raises `AttributeError`
(`_LeafNode` has no such method) rather than returning `1`. -/
theorem c7_count_leaves_amended [LinearOrder V] (log2 : ℚ → ℚ)
    (m0 : C45Classifier V) (rows : List (List V)) (cols : List String)
    (w : ℚ) (vts : V → String) (m : C45Classifier V)
    (hm : m = C45Classifier.fit log2 m0 rows cols w)
    (hrect : ∀ r ∈ rows, r.length = cols.length) (hcols : cols ≠ []) :
    (∀ a ch, m.tree = some (Node.decision a ch) →
        m.tree.bind Node.count_leaves = some ((m.rules vts).length))
      ∧ (∀ lab lw, m.tree = some (Node.leaf lab lw) →
        m.tree.bind Node.count_leaves = none
          ∧ (m.rules vts).length = 1) := by
  have hrect2 : ∀ r ∈ rows, r.length = cols.dropLast.length + 1 := by
    intro r hr
    rw [hrect r hr, List.length_dropLast]
    have : cols.length ≠ 0 := fun h =>
      hcols (List.length_eq_zero.mp h)
    omega
  have hgood : goodNode (build_decision_tree log2 m0.max_depth
      m0.min_samples_split m0.min_samples_leaf rows cols.dropLast
      (List.replicate rows.length w) 0 m0.deep).1 = true := by
    rw [build_decision_tree]
    exact buildAux_good log2 m0.max_depth m0.min_samples_split
      m0.min_samples_leaf cols.dropLast.length rows cols.dropLast
      (List.replicate rows.length w) 0 m0.deep hrect2
  have htree : m.tree = some (build_decision_tree log2 m0.max_depth
      m0.min_samples_split m0.min_samples_leaf rows cols.dropLast
      (List.replicate rows.length w) 0 m0.deep).1 := by
    rw [hm]
    rfl
  have hrules : m.rules vts = buildRulesNode vts (build_decision_tree log2
      m0.max_depth m0.min_samples_split m0.min_samples_leaf rows
      cols.dropLast (List.replicate rows.length w) 0 m0.deep).1 false ""
      "" := by
    rw [C45Classifier.rules, htree]
  constructor
  · intro a ch hch
    rw [htree] at hch
    have hroot := Option.some.inj hch
    rw [htree, hroot]
    rw [hrules, hroot]
    rw [rulesLen_node vts _ (by rw [← hroot]; exact hgood)]
    rw [leafCountOf]
    rfl
  · intro lab lw hch
    rw [htree] at hch
    have hroot := Option.some.inj hch
    constructor
    · rw [htree, hroot]
      rfl
    · rw [hrules, hroot]
      simp [buildRulesNode]

/-- C7, witness for the amended theorem: on the Decision-rooted example
model, `count_leaves()` (2) equals `len(rules())` (2). -/
theorem c7_count_leaves_amended_witness :
    exModel.tree.bind Node.count_leaves
      = some ((exModel.rules (fun n => toString n)).length) := by
  refine (c7_count_leaves_amended log2Stub (C45Classifier.init none 2 1)
    exRows exCols 1 (fun n => toString n) exModel rfl ?_ ?_).1 "A"
    [(0, Node.leaf (some 8) 1), (1, Node.leaf (some 9) 1)] ?_
  · intro r hr
    have : r = [0, 5, 8] ∨ r = [1, 5, 9] := by
      simpa [exRows] using hr
    rcases this with rfl | rfl <;> rfl
  · intro h
    cases h
  · rw [exModel_eq]

end FixedC45
